import Mathlib

/-!
Shallow embedding of the `rejex` regular-expression engine (`src/rejex.mjs`).

The source file contains two revisions of the engine.  They differ only in
`AlternationExpr.match`: the first revision returns the left branch's
remainder whenever the left branch accepts, while the second revision
returns the shorter of the two remainders when either branch accepts.
We embed both as `matchRev1` and `matchRev2`.

JavaScript strings are modelled as lists of UTF-16 code units (`JSString`),
since the split call with an empty separator splits a string into one-code-unit
strings.  The token type of the match functions is kept generic: the engine
only compares tokens for equality.

The repetition loop (`while (cur.is_match) { cur = this.expr.match(cur.remaining) }`)
has no termination guarantee in the source, so the embedding is fuel
indexed: a result of `none` means the computation has not finished within
the given fuel, and `∀ fuel, ... = none` expresses divergence.
-/

/-- One UTF-16 code unit of a JavaScript string. -/
abbrev CodeUnit := Nat

/-- A JavaScript string, as its sequence of UTF-16 code units. -/
abbrev JSString := List CodeUnit

/-- The expression tree: `CharMatchExpr`, `ConcatExpr`, `AlternationExpr`,
`RepetitionExpr`.  Each constructor stores exactly the fields the JS class
constructors store (`chr`, `lhs`/`rhs`, `expr`); the constructors perform no
validation. -/
inductive Expr (α : Type) where
  | charMatch (chr : α)
  | concat (lhs rhs : Expr α)
  | alternation (lhs rhs : Expr α)
  | repetition (expr : Expr α)
deriving DecidableEq

/-- Embeds the `while (cur.is_match) { cur = this.expr.match(cur.remaining) }`
loop of `RepetitionExpr.match`.  `f` is the inner expression's match
function; the `Nat` argument is fuel bounding the number of loop
iterations.  On loop exit the last remainder is returned with
`is_match = true`, exactly as the source does. -/
def repeatLoop {α : Type} (f : List α → Option (Bool × List α)) :
    Nat → List α → Option (Bool × List α)
  | 0, _ => none
  | Nat.succ n, remainder =>
    match f remainder with
    | none => none
    | some (is_m, rem2) =>
      if is_m then repeatLoop f n rem2 else some (true, rem2)

/-- Embeds the `match` methods of the FIRST revision of `src/rejex.mjs`
(the revision returning `[is_match, remaining_tokens]` pairs):

* `CharMatchExpr.match`: destructure `[head, ...tail]`; on an empty list
  `head` is `undefined` and differs from `chr`, so the original (empty)
  tokens are returned with no match.
* `ConcatExpr.match`: run `lhs` on the tokens, run `rhs` on the left
  remainder (the source runs `rhs` even when `lhs` failed), fail with the
  original tokens unless both matched.
* `AlternationExpr.match`: run both sides on the same tokens; if the left
  matched return its remainder, else if the right matched return its
  remainder, else fail with the original tokens.
* `RepetitionExpr.match`: the guarded-by-nothing `while` loop, via
  `repeatLoop`.

The first argument is fuel; `none` means the fuel was exhausted. -/
def matchRev1 {α : Type} [DecidableEq α] :
    Nat → Expr α → List α → Option (Bool × List α)
  | 0, _, _ => none
  | Nat.succ _, Expr.charMatch chr, tokens =>
    match tokens with
    | [] => some (false, [])
    | head :: tail =>
      if head = chr then some (true, tail) else some (false, head :: tail)
  | Nat.succ n, Expr.concat lhs rhs, tokens =>
    match matchRev1 n lhs tokens with
    | none => none
    | some (lhs_is_match, lhs_remainder) =>
      match matchRev1 n rhs lhs_remainder with
      | none => none
      | some (rhs_is_match, rhs_remainder) =>
        if lhs_is_match && rhs_is_match then some (true, rhs_remainder)
        else some (false, tokens)
  | Nat.succ n, Expr.alternation lhs rhs, tokens =>
    match matchRev1 n lhs tokens with
    | none => none
    | some (lhs_is_match, lhs_remainder) =>
      match matchRev1 n rhs tokens with
      | none => none
      | some (rhs_is_match, rhs_remainder) =>
        if lhs_is_match then some (true, lhs_remainder)
        else if rhs_is_match then some (true, rhs_remainder)
        else some (false, tokens)
  | Nat.succ n, Expr.repetition expr, tokens =>
    repeatLoop (matchRev1 n expr) n tokens

/-- Embeds the `match` methods of the SECOND revision of `src/rejex.mjs`
(the revision returning `{is_match, remaining}` objects).  It differs from
`matchRev1` only in `AlternationExpr.match`: when either side matched, the
shorter of `lhs.remaining` and `rhs.remaining` is returned (the left one
when the lengths are equal), mirroring

`let shorter_remainder = lhs.remaining;
 if (lhs.remaining.length > rhs.remaining.length) shorter_remainder = rhs.remaining`. -/
def matchRev2 {α : Type} [DecidableEq α] :
    Nat → Expr α → List α → Option (Bool × List α)
  | 0, _, _ => none
  | Nat.succ _, Expr.charMatch chr, tokens =>
    match tokens with
    | [] => some (false, [])
    | head :: tail =>
      if head = chr then some (true, tail) else some (false, head :: tail)
  | Nat.succ n, Expr.concat lhs rhs, tokens =>
    match matchRev2 n lhs tokens with
    | none => none
    | some (lhs_is_match, lhs_remainder) =>
      match matchRev2 n rhs lhs_remainder with
      | none => none
      | some (rhs_is_match, rhs_remainder) =>
        if lhs_is_match && rhs_is_match then some (true, rhs_remainder)
        else some (false, tokens)
  | Nat.succ n, Expr.alternation lhs rhs, tokens =>
    match matchRev2 n lhs tokens with
    | none => none
    | some (lhs_is_match, lhs_remainder) =>
      match matchRev2 n rhs tokens with
      | none => none
      | some (rhs_is_match, rhs_remainder) =>
        if lhs_is_match || rhs_is_match then
          some (true,
            if lhs_remainder.length > rhs_remainder.length then rhs_remainder
            else lhs_remainder)
        else some (false, tokens)
  | Nat.succ n, Expr.repetition expr, tokens =>
    repeatLoop (matchRev2 n expr) n tokens

/-- Embeds the split call of `regexMatch` (empty separator): a JavaScript
string splits into one string per
UTF-16 code unit (surrogate halves of a non-BMP code point are separated). -/
def jsSplitChars (s : JSString) : List JSString :=
  s.map (fun u => [u])

/-- Embeds `regexMatch(str, expr)` of the first revision: split the string
into one-code-unit tokens, run the root expression, return `false` when the
remainder is non-empty and the root's `is_match` otherwise. -/
def regexMatchRev1 (fuel : Nat) (str : JSString) (expr : Expr JSString) :
    Option Bool :=
  match matchRev1 fuel expr (jsSplitChars str) with
  | none => none
  | some (is_match, remainder) =>
    if remainder.length ≠ 0 then some false else some is_match

/-- Embeds `regexMatch(str, expr)` of the second revision (identical logic
to the first revision's entry point, over `matchRev2`). -/
def regexMatchRev2 (fuel : Nat) (str : JSString) (expr : Expr JSString) :
    Option Bool :=
  match matchRev2 fuel expr (jsSplitChars str) with
  | none => none
  | some (is_match, remainder) =>
    if remainder.length ≠ 0 then some false else some is_match

/-- The structured construction-time error the spec requires for malformed
`CharMatch` literals.  No such error exists in the source; the type is
introduced so that the construction claim can be stated. -/
inductive ConstructionError where
  | malformedLiteral (chr : JSString)
deriving DecidableEq

/-- Embeds the `CharMatchExpr` constructor, in an error monad recording
whether construction throws: the source body is only `this.chr = chr`, with
no validation, so every literal is accepted. -/
def charMatchConstructor (chr : JSString) :
    Except ConstructionError (Expr JSString) :=
  Except.ok (Expr.charMatch chr)

/-- UTF-16 encoding of one Unicode code point: one code unit for the BMP,
a surrogate pair for code points at or above `0x10000`. -/
def utf16EncodeChar (cp : Nat) : JSString :=
  if cp < 0x10000 then [cp]
  else [0xD800 + (cp - 0x10000) / 0x400, 0xDC00 + (cp - 0x10000) % 0x400]

/-- UTF-16 encoding of a sequence of Unicode code points. -/
def utf16Encode (cps : List Nat) : JSString :=
  (cps.map utf16EncodeChar).flatten

/-- Modelled from the spec: the tokenization the spec claims for the entry
point, "an ordered sequence of single-character symbols (Unicode-code-point
granularity)" — one symbol (the string of that code point) per code point.
The split of the source is to be compared against this. -/
def codePointTokens (cps : List Nat) : List JSString :=
  cps.map utf16EncodeChar

/-- The expression `Repetition(Alternation(CharMatch('h'), Repetition(CharMatch('e'))))`
from the non-progress-termination property of the spec (h is code unit 104,
e is 101). -/
def nonProgressExpr : Expr JSString :=
  Expr.repetition
    (Expr.alternation (Expr.charMatch [104])
      (Expr.repetition (Expr.charMatch [101])))

/-- The expression `Repetition(Repetition(CharMatch('h')))` from the
repetition-idempotence property. -/
def nestedStarExpr : Expr JSString :=
  Expr.repetition (Expr.repetition (Expr.charMatch [104]))

/-! ### Helper lemmas -/

/-- If the inner match halts with `none` on the current remainder, the
repetition loop halts with `none` for every fuel. -/
theorem repeatLoop_congr_none {α : Type} (f : List α → Option (Bool × List α))
    (rem : List α) (hf : f rem = none) :
    ∀ n, repeatLoop f n rem = none := by
  intro n
  cases n with
  | zero => rfl
  | succ n => rw [repeatLoop, hf]

/-- If the inner match always accepts without changing the remainder, the
repetition loop never terminates: it returns `none` for every fuel. -/
theorem repeatLoop_diverges {α : Type} (f : List α → Option (Bool × List α))
    (rem : List α) (hf : f rem = some (true, rem)) :
    ∀ n, repeatLoop f n rem = none := by
  intro n
  induction n with
  | zero => rfl
  | succ n ih => rw [repeatLoop, hf]; simpa using ih

/-- Suffix invariant for the repetition loop: if every inner result obeys
the remainder contract, any terminating run of the loop accepts and leaves
a suffix of its input. -/
theorem repeatLoop_suffix {α : Type} (f : List α → Option (Bool × List α))
    (hf : ∀ t m rem, f t = some (m, rem) →
      (m = true → rem <:+ t) ∧ (m = false → rem = t)) :
    ∀ (n : Nat) (t : List α) (m : Bool) (rem : List α),
      repeatLoop f n t = some (m, rem) → m = true ∧ rem <:+ t := by
  intro n
  induction n with
  | zero => intro t m rem h; simp [repeatLoop] at h
  | succ n ih =>
    intro t m rem h
    cases hft : f t with
    | none => simp [repeatLoop, hft] at h
    | some p =>
      obtain ⟨m0, rem2⟩ := p
      cases m0 with
      | true =>
        simp [repeatLoop, hft] at h
        have hrec := ih rem2 m rem h
        exact ⟨hrec.1, hrec.2.trans ((hf t true rem2 hft).1 rfl)⟩
      | false =>
        simp [repeatLoop, hft] at h
        obtain ⟨rfl, rfl⟩ := h
        refine ⟨rfl, ?_⟩
        rw [(hf t false rem2 hft).2 rfl]

/-- Remainder contract of the first revision's `match`: on acceptance the
remainder is a suffix of the input, on rejection it is the input itself. -/
theorem matchRev1_suffix {α : Type} [DecidableEq α] :
    ∀ (n : Nat) (e : Expr α) (t : List α) (m : Bool) (rem : List α),
      matchRev1 n e t = some (m, rem) →
      (m = true → rem <:+ t) ∧ (m = false → rem = t) := by
  intro n
  induction n with
  | zero => intro e t m rem h; simp [matchRev1] at h
  | succ n ih =>
    intro e t m rem h
    cases e with
    | charMatch chr =>
      cases t with
      | nil =>
        simp only [matchRev1, Option.some.injEq, Prod.mk.injEq] at h
        obtain ⟨rfl, rfl⟩ := h
        exact ⟨fun hb => Bool.noConfusion hb, fun _ => rfl⟩
      | cons head tail =>
        by_cases hc : head = chr
        · simp only [matchRev1, if_pos hc, Option.some.injEq, Prod.mk.injEq] at h
          obtain ⟨rfl, rfl⟩ := h
          exact ⟨fun _ => List.suffix_cons head tail, fun hb => Bool.noConfusion hb⟩
        · simp only [matchRev1, if_neg hc, Option.some.injEq, Prod.mk.injEq] at h
          obtain ⟨rfl, rfl⟩ := h
          exact ⟨fun hb => Bool.noConfusion hb, fun _ => rfl⟩
    | concat lhs rhs =>
      cases hl : matchRev1 n lhs t with
      | none => simp [matchRev1, hl] at h
      | some pl =>
        obtain ⟨lm, lrem⟩ := pl
        cases hr : matchRev1 n rhs lrem with
        | none => simp [matchRev1, hl, hr] at h
        | some pr =>
          obtain ⟨rm, rrem⟩ := pr
          have hL := ih lhs t lm lrem hl
          have hR := ih rhs lrem rm rrem hr
          cases lm with
          | true =>
            cases rm with
            | true =>
              simp [matchRev1, hl, hr] at h
              obtain ⟨rfl, rfl⟩ := h
              exact ⟨fun _ => (hR.1 rfl).trans (hL.1 rfl),
                     fun hb => Bool.noConfusion hb⟩
            | false =>
              simp [matchRev1, hl, hr] at h
              obtain ⟨rfl, rfl⟩ := h
              exact ⟨fun hb => Bool.noConfusion hb, fun _ => rfl⟩
          | false =>
            simp [matchRev1, hl, hr] at h
            obtain ⟨rfl, rfl⟩ := h
            exact ⟨fun hb => Bool.noConfusion hb, fun _ => rfl⟩
    | alternation lhs rhs =>
      cases hl : matchRev1 n lhs t with
      | none => simp [matchRev1, hl] at h
      | some pl =>
        obtain ⟨lm, lrem⟩ := pl
        cases hr : matchRev1 n rhs t with
        | none => simp [matchRev1, hl, hr] at h
        | some pr =>
          obtain ⟨rm, rrem⟩ := pr
          have hL := ih lhs t lm lrem hl
          have hR := ih rhs t rm rrem hr
          cases lm with
          | true =>
            simp [matchRev1, hl, hr] at h
            obtain ⟨rfl, rfl⟩ := h
            exact ⟨fun _ => hL.1 rfl, fun hb => Bool.noConfusion hb⟩
          | false =>
            cases rm with
            | true =>
              simp [matchRev1, hl, hr] at h
              obtain ⟨rfl, rfl⟩ := h
              exact ⟨fun _ => hR.1 rfl, fun hb => Bool.noConfusion hb⟩
            | false =>
              simp [matchRev1, hl, hr] at h
              obtain ⟨rfl, rfl⟩ := h
              exact ⟨fun hb => Bool.noConfusion hb, fun _ => rfl⟩
    | repetition expr =>
      simp only [matchRev1] at h
      have hrec := repeatLoop_suffix (matchRev1 n expr)
        (fun t2 m2 rem2 hm => ih expr t2 m2 rem2 hm) n t m rem h
      obtain ⟨rfl, hsuf⟩ := hrec
      exact ⟨fun _ => hsuf, fun hb => Bool.noConfusion hb⟩

/-- Remainder contract of the second revision's `match`. -/
theorem matchRev2_suffix {α : Type} [DecidableEq α] :
    ∀ (n : Nat) (e : Expr α) (t : List α) (m : Bool) (rem : List α),
      matchRev2 n e t = some (m, rem) →
      (m = true → rem <:+ t) ∧ (m = false → rem = t) := by
  intro n
  induction n with
  | zero => intro e t m rem h; simp [matchRev2] at h
  | succ n ih =>
    intro e t m rem h
    cases e with
    | charMatch chr =>
      cases t with
      | nil =>
        simp only [matchRev2, Option.some.injEq, Prod.mk.injEq] at h
        obtain ⟨rfl, rfl⟩ := h
        exact ⟨fun hb => Bool.noConfusion hb, fun _ => rfl⟩
      | cons head tail =>
        by_cases hc : head = chr
        · simp only [matchRev2, if_pos hc, Option.some.injEq, Prod.mk.injEq] at h
          obtain ⟨rfl, rfl⟩ := h
          exact ⟨fun _ => List.suffix_cons head tail, fun hb => Bool.noConfusion hb⟩
        · simp only [matchRev2, if_neg hc, Option.some.injEq, Prod.mk.injEq] at h
          obtain ⟨rfl, rfl⟩ := h
          exact ⟨fun hb => Bool.noConfusion hb, fun _ => rfl⟩
    | concat lhs rhs =>
      cases hl : matchRev2 n lhs t with
      | none => simp [matchRev2, hl] at h
      | some pl =>
        obtain ⟨lm, lrem⟩ := pl
        cases hr : matchRev2 n rhs lrem with
        | none => simp [matchRev2, hl, hr] at h
        | some pr =>
          obtain ⟨rm, rrem⟩ := pr
          have hL := ih lhs t lm lrem hl
          have hR := ih rhs lrem rm rrem hr
          cases lm with
          | true =>
            cases rm with
            | true =>
              simp [matchRev2, hl, hr] at h
              obtain ⟨rfl, rfl⟩ := h
              exact ⟨fun _ => (hR.1 rfl).trans (hL.1 rfl),
                     fun hb => Bool.noConfusion hb⟩
            | false =>
              simp [matchRev2, hl, hr] at h
              obtain ⟨rfl, rfl⟩ := h
              exact ⟨fun hb => Bool.noConfusion hb, fun _ => rfl⟩
          | false =>
            simp [matchRev2, hl, hr] at h
            obtain ⟨rfl, rfl⟩ := h
            exact ⟨fun hb => Bool.noConfusion hb, fun _ => rfl⟩
    | alternation lhs rhs =>
      cases hl : matchRev2 n lhs t with
      | none => simp [matchRev2, hl] at h
      | some pl =>
        obtain ⟨lm, lrem⟩ := pl
        cases hr : matchRev2 n rhs t with
        | none => simp [matchRev2, hl, hr] at h
        | some pr =>
          obtain ⟨rm, rrem⟩ := pr
          have hL := ih lhs t lm lrem hl
          have hR := ih rhs t rm rrem hr
          have hlrem : lrem <:+ t := by
            cases lm with
            | true => exact hL.1 rfl
            | false => rw [hL.2 rfl]
          have hrrem : rrem <:+ t := by
            cases rm with
            | true => exact hR.1 rfl
            | false => rw [hR.2 rfl]
          by_cases hor : (lm || rm) = true
          · simp only [matchRev2, hl, hr, if_pos hor, Option.some.injEq,
              Prod.mk.injEq] at h
            obtain ⟨rfl, rfl⟩ := h
            refine ⟨fun _ => ?_, fun hb => Bool.noConfusion hb⟩
            by_cases hlen : lrem.length > rrem.length
            · rw [if_pos hlen]; exact hrrem
            · rw [if_neg hlen]; exact hlrem
          · simp only [matchRev2, hl, hr, if_neg hor, Option.some.injEq,
              Prod.mk.injEq] at h
            obtain ⟨rfl, rfl⟩ := h
            exact ⟨fun hb => Bool.noConfusion hb, fun _ => rfl⟩
    | repetition expr =>
      simp only [matchRev2] at h
      have hrec := repeatLoop_suffix (matchRev2 n expr)
        (fun t2 m2 rem2 hm => ih expr t2 m2 rem2 hm) n t m rem h
      obtain ⟨rfl, hsuf⟩ := hrec
      exact ⟨fun _ => hsuf, fun hb => Bool.noConfusion hb⟩

/-- Fuel monotonicity for the repetition loop, allowing the inner match
function to be upgraded pointwise. -/
theorem repeatLoop_mono {α : Type} (f g : List α → Option (Bool × List α))
    (hfg : ∀ t r, f t = some r → g t = some r) :
    ∀ (n : Nat) (t : List α) (r : Bool × List α),
      repeatLoop f n t = some r → repeatLoop g (n + 1) t = some r := by
  intro n
  induction n with
  | zero => intro t r h; simp [repeatLoop] at h
  | succ n ih =>
    intro t r h
    cases hft : f t with
    | none => simp [repeatLoop, hft] at h
    | some p =>
      obtain ⟨m0, rem2⟩ := p
      have hgt : g t = some (m0, rem2) := hfg t (m0, rem2) hft
      cases m0 with
      | true =>
        simp [repeatLoop, hft] at h
        simp [repeatLoop, hgt]
        exact ih rem2 r h
      | false =>
        simp [repeatLoop, hft] at h
        simp [repeatLoop, hgt]
        exact h
      
/-- Fuel monotonicity of the second revision's `match`: a result obtained
with some fuel is preserved by more fuel. -/
theorem matchRev2_mono {α : Type} [DecidableEq α] :
    ∀ (n : Nat) (e : Expr α) (t : List α) (r : Bool × List α),
      matchRev2 n e t = some r → matchRev2 (n + 1) e t = some r := by
  intro n
  induction n with
  | zero => intro e t r h; simp [matchRev2] at h
  | succ n ih =>
    intro e t r h
    cases e with
    | charMatch chr => exact h
    | concat lhs rhs =>
      cases hl : matchRev2 n lhs t with
      | none => simp [matchRev2, hl] at h
      | some pl =>
        obtain ⟨lm, lrem⟩ := pl
        cases hr : matchRev2 n rhs lrem with
        | none => simp [matchRev2, hl, hr] at h
        | some pr =>
          obtain ⟨rm, rrem⟩ := pr
          simp only [matchRev2, hl, hr] at h
          simp only [matchRev2, ih lhs t (lm, lrem) hl, ih rhs lrem (rm, rrem) hr]
          exact h
    | alternation lhs rhs =>
      cases hl : matchRev2 n lhs t with
      | none => simp [matchRev2, hl] at h
      | some pl =>
        obtain ⟨lm, lrem⟩ := pl
        cases hr : matchRev2 n rhs t with
        | none => simp [matchRev2, hl, hr] at h
        | some pr =>
          obtain ⟨rm, rrem⟩ := pr
          simp only [matchRev2, hl, hr] at h
          simp only [matchRev2, ih lhs t (lm, lrem) hl, ih rhs t (rm, rrem) hr]
          exact h
    | repetition expr =>
      simp only [matchRev2] at h ⊢
      exact repeatLoop_mono (matchRev2 n expr) (matchRev2 (n + 1) expr)
        (fun t2 r2 hm => ih expr t2 r2 hm) n t r h

/-- The entry point's value, computed from the root match's result. -/
theorem regexMatchRev2_eq (n : Nat) (s : JSString) (e : Expr JSString)
    (m : Bool) (rem : List JSString)
    (h : matchRev2 n e (jsSplitChars s) = some (m, rem)) :
    regexMatchRev2 n s e = some (if rem.length = 0 then m else false) := by
  simp only [regexMatchRev2, h]
  cases rem with
  | nil => simp
  | cons a rest => simp

/-- Fuel shapes of the first revision's match for the inner expression
`Alternation(CharMatch('h'), Repetition(CharMatch('e')))` on empty input:
either the fuel is exhausted or the alternation accepts without consuming
anything (its repetition branch matches the empty sequence). -/
theorem innerAltEmpty_rev1 :
    ∀ n, matchRev1 n (Expr.alternation (Expr.charMatch ([104] : JSString))
        (Expr.repetition (Expr.charMatch [101]))) [] = none ∨
      matchRev1 n (Expr.alternation (Expr.charMatch ([104] : JSString))
        (Expr.repetition (Expr.charMatch [101]))) [] = some (true, []) := by
  intro n
  match n with
  | 0 => exact Or.inl rfl
  | 1 => exact Or.inl rfl
  | 2 => exact Or.inl rfl
  | (j + 3) => exact Or.inr rfl

/-- Same fuel shapes for the second revision. -/
theorem innerAltEmpty_rev2 :
    ∀ n, matchRev2 n (Expr.alternation (Expr.charMatch ([104] : JSString))
        (Expr.repetition (Expr.charMatch [101]))) [] = none ∨
      matchRev2 n (Expr.alternation (Expr.charMatch ([104] : JSString))
        (Expr.repetition (Expr.charMatch [101]))) [] = some (true, []) := by
  intro n
  match n with
  | 0 => exact Or.inl rfl
  | 1 => exact Or.inl rfl
  | 2 => exact Or.inl rfl
  | (j + 3) => exact Or.inr rfl

/-- Fuel shapes of the first revision's match for `Repetition(CharMatch('h'))`
on empty input: fuel exhaustion or acceptance without consumption. -/
theorem innerStarEmpty_rev1 :
    ∀ n, matchRev1 n (Expr.repetition (Expr.charMatch ([104] : JSString))) [] = none ∨
      matchRev1 n (Expr.repetition (Expr.charMatch ([104] : JSString))) [] =
        some (true, []) := by
  intro n
  match n with
  | 0 => exact Or.inl rfl
  | 1 => exact Or.inl rfl
  | (j + 2) => exact Or.inr rfl

/-- Same fuel shapes for the second revision. -/
theorem innerStarEmpty_rev2 :
    ∀ n, matchRev2 n (Expr.repetition (Expr.charMatch ([104] : JSString))) [] = none ∨
      matchRev2 n (Expr.repetition (Expr.charMatch ([104] : JSString))) [] =
        some (true, []) := by
  intro n
  match n with
  | 0 => exact Or.inl rfl
  | 1 => exact Or.inl rfl
  | (j + 2) => exact Or.inr rfl

/-! ### Claim theorems -/

/-- Claim C4: for every expression variant and every input token sequence
on which `match` terminates, in both revisions: if the result is accepted
the returned remainder is a suffix of the input sequence, and if the result
is not accepted the returned remainder equals the original input unchanged. -/
theorem match_remainder_contract {α : Type} [DecidableEq α]
    (fuel : Nat) (e : Expr α) (t : List α) (m : Bool) (rem : List α) :
    (matchRev1 fuel e t = some (m, rem) →
      (m = true → rem <:+ t) ∧ (m = false → rem = t)) ∧
    (matchRev2 fuel e t = some (m, rem) →
      (m = true → rem <:+ t) ∧ (m = false → rem = t)) :=
  ⟨matchRev1_suffix fuel e t m rem, matchRev2_suffix fuel e t m rem⟩

/-- Witness for C4: `CharMatch('h')` on tokens `["h","e"]` accepts and the
remainder `["e"]` is a suffix of the input. -/
theorem match_remainder_contract_witness :
    ([[101]] : List JSString) <:+ [[104], [101]] :=
  ((match_remainder_contract 5 (Expr.charMatch [104]) [[104], [101]] true
      [[101]]).1 (by rfl)).1 rfl

/-- Claim C5: in both revisions the entry point returns true exactly when
the root match accepted with an empty remainder, and an accepted match with
a non-empty leftover remainder is reported as overall false. -/
theorem regexMatch_anchoring (fuel : Nat) (str : JSString) (expr : Expr JSString) :
    (regexMatchRev1 fuel str expr = some true ↔
      matchRev1 fuel expr (jsSplitChars str) = some (true, [])) ∧
    (regexMatchRev2 fuel str expr = some true ↔
      matchRev2 fuel expr (jsSplitChars str) = some (true, [])) ∧
    (∀ rem, matchRev1 fuel expr (jsSplitChars str) = some (true, rem) →
      rem ≠ [] → regexMatchRev1 fuel str expr = some false) ∧
    (∀ rem, matchRev2 fuel expr (jsSplitChars str) = some (true, rem) →
      rem ≠ [] → regexMatchRev2 fuel str expr = some false) := by
  refine ⟨?_, ?_, ?_, ?_⟩
  · cases hm : matchRev1 fuel expr (jsSplitChars str) with
    | none => simp [regexMatchRev1, hm]
    | some p =>
      obtain ⟨m, rem⟩ := p
      cases rem with
      | nil => simp [regexMatchRev1, hm]
      | cons a rest => simp [regexMatchRev1, hm]
  · cases hm : matchRev2 fuel expr (jsSplitChars str) with
    | none => simp [regexMatchRev2, hm]
    | some p =>
      obtain ⟨m, rem⟩ := p
      cases rem with
      | nil => simp [regexMatchRev2, hm]
      | cons a rest => simp [regexMatchRev2, hm]
  · intro rem hm hne
    cases rem with
    | nil => exact absurd rfl hne
    | cons a rest => simp [regexMatchRev1, hm]
  · intro rem hm hne
    cases rem with
    | nil => exact absurd rfl hne
    | cons a rest => simp [regexMatchRev2, hm]

/-- Witness for C5: `CharMatch('h')` accepts a prefix of `"he"` with
leftover `["e"]`, and the entry point reports overall false. -/
theorem regexMatch_anchoring_witness :
    regexMatchRev1 5 [104, 101] (Expr.charMatch [104]) = some false :=
  (regexMatch_anchoring 5 [104, 101] (Expr.charMatch [104])).2.2.1
    [[101]] (by rfl) (by decide)

/-- Claim C6: leaf exactness in both revisions.  At the top level,
`isMatch(s, CharMatch(c))` holds exactly when `s` is the one-symbol string
`[c]`.  At the sub-match level, `CharMatch.match` on a non-empty sequence
whose head equals the literal accepts and removes exactly that symbol; on
the empty sequence or on a mismatching head it rejects and returns the
input unchanged. -/
theorem charMatch_exactness {α : Type} [DecidableEq α]
    (c : CodeUnit) (s : JSString) (chr x : α) (t : List α) (fuel : Nat) :
    (regexMatchRev1 (fuel + 1) s (Expr.charMatch [c]) = some true ↔ s = [c]) ∧
    (regexMatchRev2 (fuel + 1) s (Expr.charMatch [c]) = some true ↔ s = [c]) ∧
    matchRev1 (fuel + 1) (Expr.charMatch chr) (chr :: t) = some (true, t) ∧
    matchRev2 (fuel + 1) (Expr.charMatch chr) (chr :: t) = some (true, t) ∧
    matchRev1 (fuel + 1) (Expr.charMatch chr) ([] : List α) = some (false, []) ∧
    matchRev2 (fuel + 1) (Expr.charMatch chr) ([] : List α) = some (false, []) ∧
    (x ≠ chr → matchRev1 (fuel + 1) (Expr.charMatch chr) (x :: t) =
      some (false, x :: t)) ∧
    (x ≠ chr → matchRev2 (fuel + 1) (Expr.charMatch chr) (x :: t) =
      some (false, x :: t)) := by
  refine ⟨?_, ?_, by simp [matchRev1], by simp [matchRev2], rfl, rfl,
    fun hne => by simp [matchRev1, hne], fun hne => by simp [matchRev2, hne]⟩
  · cases s with
    | nil => simp [regexMatchRev1, matchRev1, jsSplitChars]
    | cons u rest =>
      by_cases hu : u = c
      · subst hu
        cases rest with
        | nil => simp [regexMatchRev1, matchRev1, jsSplitChars]
        | cons a more => simp [regexMatchRev1, matchRev1, jsSplitChars]
      · simp [regexMatchRev1, matchRev1, jsSplitChars, hu]
  · cases s with
    | nil => simp [regexMatchRev2, matchRev2, jsSplitChars]
    | cons u rest =>
      by_cases hu : u = c
      · subst hu
        cases rest with
        | nil => simp [regexMatchRev2, matchRev2, jsSplitChars]
        | cons a more => simp [regexMatchRev2, matchRev2, jsSplitChars]
      · simp [regexMatchRev2, matchRev2, jsSplitChars, hu]

/-- Witness for C6: `isMatch("h", CharMatch('h'))` is true, and
`CharMatch('h')` rejects the mismatching head g (103) unchanged. -/
theorem charMatch_exactness_witness :
    regexMatchRev1 5 [104] (Expr.charMatch [104]) = some true ∧
    matchRev1 5 (Expr.charMatch (104 : Nat)) [103] = some (false, [103]) :=
  ⟨(charMatch_exactness 104 [104] (104 : Nat) 103 [] 4).1.2 (by rfl),
   (charMatch_exactness 104 [104] (104 : Nat) 103 ([] : List Nat) 4).2.2.2.2.2.2.1
     (by decide)⟩

/-- Claim C10: when both subexpressions accept with remainders of equal
length, `Alternation.match` returns the left subexpression's remainder, in
both revisions of the code. -/
theorem alternation_tie_left {α : Type} [DecidableEq α]
    (fuel : Nat) (lhs rhs : Expr α) (tokens lrem rrem : List α) :
    (matchRev1 fuel lhs tokens = some (true, lrem) →
     matchRev1 fuel rhs tokens = some (true, rrem) →
     lrem.length = rrem.length →
     matchRev1 (fuel + 1) (Expr.alternation lhs rhs) tokens = some (true, lrem)) ∧
    (matchRev2 fuel lhs tokens = some (true, lrem) →
     matchRev2 fuel rhs tokens = some (true, rrem) →
     lrem.length = rrem.length →
     matchRev2 (fuel + 1) (Expr.alternation lhs rhs) tokens = some (true, lrem)) := by
  constructor
  · intro hl hr _hlen
    simp [matchRev1, hl, hr]
  · intro hl hr hlen
    have hnot : ¬ lrem.length > rrem.length := by omega
    simp [matchRev2, hl, hr, if_neg hnot]

/-- Witness for C10: an alternation of two copies of `CharMatch('h')` on
`["h"]` — both branches accept with the empty remainder — returns the left
remainder. -/
theorem alternation_tie_left_witness :
    matchRev1 2 (Expr.alternation (Expr.charMatch (104 : Nat))
        (Expr.charMatch 104)) [104] = some (true, []) ∧
    matchRev2 2 (Expr.alternation (Expr.charMatch (104 : Nat))
        (Expr.charMatch 104)) [104] = some (true, []) :=
  ⟨(alternation_tie_left 1 (Expr.charMatch 104) (Expr.charMatch 104)
      [104] [] []).1 (by rfl) (by rfl) rfl,
   (alternation_tie_left 1 (Expr.charMatch 104) (Expr.charMatch 104)
      [104] [] []).2 (by rfl) (by rfl) rfl⟩

/-- Claim C1 (refuted by the code): `RepetitionExpr.match` has no
non-progress detection.  On the spec's own example
`Repetition(Alternation(CharMatch('h'), Repetition(CharMatch('e'))))` and
the empty input, the inner alternation always accepts with the remainder
unchanged, so the `while (cur.is_match)` loop never exits: in both
revisions the match returns `none` for every fuel, i.e. diverges. -/
theorem repetition_nonprogress_diverges :
    ∀ fuel : Nat,
      matchRev1 fuel nonProgressExpr ([] : List JSString) = none ∧
      matchRev2 fuel nonProgressExpr ([] : List JSString) = none := by
  intro fuel
  constructor
  · cases fuel with
    | zero => rfl
    | succ n =>
      show repeatLoop (matchRev1 n (Expr.alternation (Expr.charMatch [104])
        (Expr.repetition (Expr.charMatch [101])))) n [] = none
      rcases innerAltEmpty_rev1 n with hno | hyes
      · exact repeatLoop_congr_none _ [] hno n
      · exact repeatLoop_diverges _ [] hyes n
  · cases fuel with
    | zero => rfl
    | succ n =>
      show repeatLoop (matchRev2 n (Expr.alternation (Expr.charMatch [104])
        (Expr.repetition (Expr.charMatch [101])))) n [] = none
      rcases innerAltEmpty_rev2 n with hno | hyes
      · exact repeatLoop_congr_none _ [] hno n
      · exact repeatLoop_diverges _ [] hyes n

/-- Claim C7 (refuted by the code): wrapping a Repetition in another
Repetition does not preserve the result — it destroys termination.
`Repetition(CharMatch('h'))` matches the empty string (entry point returns
true), but `Repetition(Repetition(CharMatch('h')))` diverges on the empty
input in both revisions: the inner repetition always accepts without
consuming, and the outer loop never exits. -/
theorem repetition_idempotence_fails :
    (∀ fuel : Nat,
      matchRev1 fuel nestedStarExpr ([] : List JSString) = none ∧
      matchRev2 fuel nestedStarExpr ([] : List JSString) = none) ∧
    regexMatchRev1 5 [] (Expr.repetition (Expr.charMatch [104])) = some true ∧
    regexMatchRev2 5 [] (Expr.repetition (Expr.charMatch [104])) = some true := by
  refine ⟨?_, rfl, rfl⟩
  intro fuel
  constructor
  · cases fuel with
    | zero => rfl
    | succ n =>
      show repeatLoop (matchRev1 n (Expr.repetition (Expr.charMatch [104]))) n []
        = none
      rcases innerStarEmpty_rev1 n with hno | hyes
      · exact repeatLoop_congr_none _ [] hno n
      · exact repeatLoop_diverges _ [] hyes n
  · cases fuel with
    | zero => rfl
    | succ n =>
      show repeatLoop (matchRev2 n (Expr.repetition (Expr.charMatch [104]))) n []
        = none
      rcases innerStarEmpty_rev2 n with hno | hyes
      · exact repeatLoop_congr_none _ [] hno n
      · exact repeatLoop_diverges _ [] hyes n

/-- Claim C2 counterexample: on `"he"` against
`Alternation(CharMatch('h'), Concat(CharMatch('h'), CharMatch('e')))` both
branches accept and the right branch's remainder `[]` is strictly shorter,
yet the first revision's `Alternation.match` returns the left branch's
remainder `["e"]` — not the remainder of the strictly shorter branch. -/
theorem alternation_not_greedy_rev1_cex :
    matchRev1 9 (Expr.alternation (Expr.charMatch ([104] : JSString))
        (Expr.concat (Expr.charMatch [104]) (Expr.charMatch [101])))
        [[104], [101]] = some (true, [[101]]) ∧
    matchRev1 9 (Expr.charMatch ([104] : JSString)) [[104], [101]] =
      some (true, [[101]]) ∧
    matchRev1 9 (Expr.concat (Expr.charMatch ([104] : JSString))
        (Expr.charMatch [101])) [[104], [101]] = some (true, []) ∧
    ([] : List JSString).length < [[101]].length := by
  refine ⟨by rfl, by rfl, by rfl, by decide⟩

/-- Claim C2 amended: in the second revision, when both branches accept,
`Alternation.match` accepts and returns the strictly shorter remainder
(whichever side it comes from); in the first revision it returns the left
branch's remainder whenever the left branch accepts, regardless of the
right branch. -/
theorem alternation_greedy_shorter {α : Type} [DecidableEq α]
    (fuel : Nat) (lhs rhs : Expr α) (tokens lrem rrem : List α) (rm : Bool) :
    (matchRev1 fuel lhs tokens = some (true, lrem) →
     matchRev1 fuel rhs tokens = some (rm, rrem) →
     matchRev1 (fuel + 1) (Expr.alternation lhs rhs) tokens = some (true, lrem)) ∧
    (matchRev2 fuel lhs tokens = some (true, lrem) →
     matchRev2 fuel rhs tokens = some (true, rrem) →
     rrem.length < lrem.length →
     matchRev2 (fuel + 1) (Expr.alternation lhs rhs) tokens = some (true, rrem)) ∧
    (matchRev2 fuel lhs tokens = some (true, lrem) →
     matchRev2 fuel rhs tokens = some (true, rrem) →
     lrem.length < rrem.length →
     matchRev2 (fuel + 1) (Expr.alternation lhs rhs) tokens = some (true, lrem)) := by
  refine ⟨?_, ?_, ?_⟩
  · intro hl hr
    simp [matchRev1, hl, hr]
  · intro hl hr hlt
    have hgt : lrem.length > rrem.length := hlt
    simp [matchRev2, hl, hr, if_pos hgt]
  · intro hl hr hlt
    have hngt : ¬ lrem.length > rrem.length := by omega
    simp [matchRev2, hl, hr, if_neg hngt]

/-- Witness for the amended C2: in the second revision, `"he"` against
`Alternation(CharMatch('h'), Concat(CharMatch('h'), CharMatch('e')))`
consumes both characters (remainder of the strictly shorter branch). -/
theorem alternation_greedy_shorter_witness :
    matchRev2 9 (Expr.alternation (Expr.charMatch ([104] : JSString))
        (Expr.concat (Expr.charMatch [104]) (Expr.charMatch [101])))
        [[104], [101]] = some (true, []) :=
  (alternation_greedy_shorter 8 (Expr.charMatch [104])
      (Expr.concat (Expr.charMatch [104]) (Expr.charMatch [101]))
      [[104], [101]] [[101]] [] true).2.1 (by rfl) (by rfl) (by decide)

/-- Claim C9 counterexample: constructing a `CharMatch` whose literal is
not exactly one symbol does not fail — the constructor has no validation,
so the zero-length literal `""` and the two-symbol literal `"he"` are both
accepted and stored, with no `ConstructionError`. -/
theorem charMatch_construction_unvalidated_cex :
    charMatchConstructor [] = Except.ok (Expr.charMatch []) ∧
    charMatchConstructor [104, 101] = Except.ok (Expr.charMatch [104, 101]) :=
  ⟨rfl, rfl⟩

/-- Claim C9 amended: the `CharMatchExpr` constructor stores any literal
without validation and never raises a `ConstructionError`; no error is
raised at match time either — a literal that is not exactly one symbol
simply never matches, so the entry point reports false on every input. -/
theorem charMatch_construction_total (chr : JSString) (s : JSString) (fuel : Nat) :
    charMatchConstructor chr = Except.ok (Expr.charMatch chr) ∧
    (chr.length ≠ 1 →
      regexMatchRev1 (fuel + 1) s (Expr.charMatch chr) = some false ∧
      regexMatchRev2 (fuel + 1) s (Expr.charMatch chr) = some false) := by
  refine ⟨rfl, fun hlen => ⟨?_, ?_⟩⟩
  · cases s with
    | nil => simp [regexMatchRev1, matchRev1, jsSplitChars]
    | cons u rest =>
      have hne : ([u] : JSString) ≠ chr := by
        intro he
        rw [← he] at hlen
        simp at hlen
      simp [regexMatchRev1, matchRev1, jsSplitChars, hne]
  · cases s with
    | nil => simp [regexMatchRev2, matchRev2, jsSplitChars]
    | cons u rest =>
      have hne : ([u] : JSString) ≠ chr := by
        intro he
        rw [← he] at hlen
        simp at hlen
      simp [regexMatchRev2, matchRev2, jsSplitChars, hne]

/-- Witness for the amended C9: the empty literal is accepted at
construction and `isMatch("h", CharMatch(""))` is false without error. -/
theorem charMatch_construction_total_witness :
    regexMatchRev1 1 [104] (Expr.charMatch []) = some false :=
  ((charMatch_construction_total [] [104] 0).2 (by decide)).1

/-- Claim C8 counterexample: the entry point splits with an empty separator
and so tokenizes at
UTF-16 code-unit granularity, not code-point granularity.  The single code
point U+1F4A9 produces two surrogate tokens instead of one code-point
token, and `CharMatch` of that code point's own string fails to match the
one-code-point string in both revisions. -/
theorem tokenize_codeunit_cex :
    jsSplitChars (utf16Encode [0x1F4A9]) ≠ codePointTokens [0x1F4A9] ∧
    (jsSplitChars (utf16Encode [0x1F4A9])).length = 2 ∧
    regexMatchRev1 3 (utf16Encode [0x1F4A9])
      (Expr.charMatch (utf16EncodeChar 0x1F4A9)) = some false ∧
    regexMatchRev2 3 (utf16Encode [0x1F4A9])
      (Expr.charMatch (utf16EncodeChar 0x1F4A9)) = some false := by
  refine ⟨by decide, by decide, by decide, by decide⟩

/-- Claim C8 amended: the entry point tokenizes at UTF-16 code-unit
granularity.  A BMP code point is one symbol and `CharMatch` of it matches
its one-character string, but a code point at or above U+10000 splits into
two surrogate symbols, so `CharMatch` of its string never matches it. -/
theorem tokenize_codeunit_granularity (u cp fuel : Nat) :
    (u < 0x10000 →
      (jsSplitChars (utf16Encode [u])).length = 1 ∧
      regexMatchRev1 (fuel + 1) (utf16Encode [u])
        (Expr.charMatch (utf16EncodeChar u)) = some true ∧
      regexMatchRev2 (fuel + 1) (utf16Encode [u])
        (Expr.charMatch (utf16EncodeChar u)) = some true) ∧
    (0x10000 ≤ cp →
      (jsSplitChars (utf16Encode [cp])).length = 2 ∧
      regexMatchRev1 (fuel + 1) (utf16Encode [cp])
        (Expr.charMatch (utf16EncodeChar cp)) = some false ∧
      regexMatchRev2 (fuel + 1) (utf16Encode [cp])
        (Expr.charMatch (utf16EncodeChar cp)) = some false) := by
  constructor
  · intro hu
    refine ⟨?_, ?_, ?_⟩
    · simp [jsSplitChars, utf16Encode, utf16EncodeChar, if_pos hu]
    · simp [regexMatchRev1, matchRev1, jsSplitChars, utf16Encode,
        utf16EncodeChar, if_pos hu]
    · simp [regexMatchRev2, matchRev2, jsSplitChars, utf16Encode,
        utf16EncodeChar, if_pos hu]
  · intro hcp
    have hncp : ¬ cp < 0x10000 := by omega
    refine ⟨?_, ?_, ?_⟩
    · simp [jsSplitChars, utf16Encode, utf16EncodeChar, if_neg hncp]
    · simp [regexMatchRev1, matchRev1, jsSplitChars, utf16Encode,
        utf16EncodeChar, if_neg hncp]
    · simp [regexMatchRev2, matchRev2, jsSplitChars, utf16Encode,
        utf16EncodeChar, if_neg hncp]

/-- Witness for the amended C8: `"h"` (BMP) tokenizes to one symbol and
matches its CharMatch; U+1F4A9 tokenizes to two symbols and its CharMatch
reports false. -/
theorem tokenize_codeunit_granularity_witness :
    regexMatchRev1 3 (utf16Encode [104])
      (Expr.charMatch (utf16EncodeChar 104)) = some true ∧
    regexMatchRev2 3 (utf16Encode [0x1F4A9])
      (Expr.charMatch (utf16EncodeChar 0x1F4A9)) = some false :=
  ⟨((tokenize_codeunit_granularity 104 0x1F4A9 2).1 (by decide)).2.1,
   ((tokenize_codeunit_granularity 104 0x1F4A9 2).2 (by decide)).2.2⟩

/-- Claim C3 counterexample: with the first revision, on `s = "he"`,
`X = CharMatch('h')`, `Y = Concat(CharMatch('h'), CharMatch('e'))`:
`isMatch(s, Y)` is true but `isMatch(s, Alternation(X, Y))` is false — the
left-biased remainder choice returns `["e"]` and the anchor check fails —
so the claimed equivalence fails on the first revision's engine. -/
theorem alternation_union_rev1_cex :
    regexMatchRev1 9 [104, 101]
      (Expr.alternation (Expr.charMatch [104])
        (Expr.concat (Expr.charMatch [104]) (Expr.charMatch [101]))) =
      some false ∧
    regexMatchRev1 9 [104, 101]
      (Expr.concat (Expr.charMatch [104]) (Expr.charMatch [101])) = some true ∧
    regexMatchRev1 9 [104, 101] (Expr.charMatch [104]) = some false :=
  ⟨by rfl, by rfl, by rfl⟩

/-- Claim C3 amended: for the second revision's engine, whenever the three
top-level matches terminate, `isMatch(s, Alternation(X, Y))` is true iff
`isMatch(s, X)` or `isMatch(s, Y)` is true.  (The first revision violates
the equivalence.) -/
theorem alternation_union_rev2 (fuel : Nat) (X Y : Expr JSString)
    (s : JSString) (a bx c : Bool)
    (h1 : regexMatchRev2 fuel s (Expr.alternation X Y) = some a)
    (h2 : regexMatchRev2 fuel s X = some bx)
    (h3 : regexMatchRev2 fuel s Y = some c) :
    a = (bx || c) := by
  cases fuel with
  | zero => simp [regexMatchRev2, matchRev2] at h1
  | succ n =>
    cases hX : matchRev2 n X (jsSplitChars s) with
    | none => simp [regexMatchRev2, matchRev2, hX] at h1
    | some pX =>
      obtain ⟨mx, rx⟩ := pX
      cases hY : matchRev2 n Y (jsSplitChars s) with
      | none => simp [regexMatchRev2, matchRev2, hX, hY] at h1
      | some pY =>
        obtain ⟨my, ry⟩ := pY
        have hbx : bx = if rx.length = 0 then mx else false := by
          have hh := regexMatchRev2_eq (n + 1) s X mx rx (matchRev2_mono n X _ _ hX)
          rw [h2] at hh
          exact Option.some.inj hh
        have hc : c = if ry.length = 0 then my else false := by
          have hh := regexMatchRev2_eq (n + 1) s Y my ry (matchRev2_mono n Y _ _ hY)
          rw [h3] at hh
          exact Option.some.inj hh
        have hsx := matchRev2_suffix n X (jsSplitChars s) mx rx hX
        have hsy := matchRev2_suffix n Y (jsSplitChars s) my ry hY
        cases mx with
        | false =>
          have hrx : rx = jsSplitChars s := hsx.2 rfl
          cases my with
          | false =>
            have halt : matchRev2 (n + 1) (Expr.alternation X Y)
                (jsSplitChars s) = some (false, jsSplitChars s) := by
              simp [matchRev2, hX, hY]
            have ha : a = if (jsSplitChars s).length = 0 then false else false := by
              have hh := regexMatchRev2_eq (n + 1) s (Expr.alternation X Y)
                false (jsSplitChars s) halt
              rw [h1] at hh
              exact Option.some.inj hh
            rw [ha, hbx, hc]
            simp
          | true =>
            have hrys : ry <:+ jsSplitChars s := hsy.1 rfl
            have halt : matchRev2 (n + 1) (Expr.alternation X Y)
                (jsSplitChars s) =
                some (true, if rx.length > ry.length then ry else rx) := by
              simp [matchRev2, hX, hY]
            by_cases hcmp : rx.length > ry.length
            · rw [if_pos hcmp] at halt
              have ha : a = if ry.length = 0 then true else false := by
                have hh := regexMatchRev2_eq (n + 1) s (Expr.alternation X Y)
                  true ry halt
                rw [h1] at hh
                exact Option.some.inj hh
              rw [ha, hbx, hc]
              simp
            · rw [if_neg hcmp] at halt
              have ha : a = if rx.length = 0 then true else false := by
                have hh := regexMatchRev2_eq (n + 1) s (Expr.alternation X Y)
                  true rx halt
                rw [h1] at hh
                exact Option.some.inj hh
              have hlen2 : ry.length = rx.length := by
                have h1l := hrys.length_le
                rw [hrx]
                rw [hrx] at hcmp
                omega
              rw [ha, hbx, hc, hlen2]
              simp
        | true =>
          have hrxs : rx <:+ jsSplitChars s := hsx.1 rfl
          cases my with
          | false =>
            have hry : ry = jsSplitChars s := hsy.2 rfl
            have hcmp : ¬ rx.length > ry.length := by
              have hle := hrxs.length_le
              rw [hry]
              omega
            have halt : matchRev2 (n + 1) (Expr.alternation X Y)
                (jsSplitChars s) = some (true, rx) := by
              simp [matchRev2, hX, hY, if_neg hcmp]
            have ha : a = if rx.length = 0 then true else false := by
              have hh := regexMatchRev2_eq (n + 1) s (Expr.alternation X Y)
                true rx halt
              rw [h1] at hh
              exact Option.some.inj hh
            rw [ha, hbx, hc]
            simp
          | true =>
            by_cases hcmp : rx.length > ry.length
            · have halt : matchRev2 (n + 1) (Expr.alternation X Y)
                  (jsSplitChars s) = some (true, ry) := by
                simp [matchRev2, hX, hY, if_pos hcmp]
              have ha : a = if ry.length = 0 then true else false := by
                have hh := regexMatchRev2_eq (n + 1) s (Expr.alternation X Y)
                  true ry halt
                rw [h1] at hh
                exact Option.some.inj hh
              have hbx0 : bx = false := by
                rw [hbx, if_neg (by omega)]
              rw [ha, hbx0, hc]
              simp
            · have halt : matchRev2 (n + 1) (Expr.alternation X Y)
                  (jsSplitChars s) = some (true, rx) := by
                simp [matchRev2, hX, hY, if_neg hcmp]
              have ha : a = if rx.length = 0 then true else false := by
                have hh := regexMatchRev2_eq (n + 1) s (Expr.alternation X Y)
                  true rx halt
                rw [h1] at hh
                exact Option.some.inj hh
              rw [ha, hbx, hc]
              by_cases hrx0 : rx.length = 0
              · rw [if_pos hrx0]
                simp
              · have hry0 : ¬ ry.length = 0 := by omega
                rw [if_neg hrx0, if_neg hry0]
                simp

/-- Witness for the amended C3: `s = "h"`, `X = CharMatch('h')`,
`Y = CharMatch('e')` — all three top-level matches terminate, and the
alternation result `true` equals `true || false`. -/
theorem alternation_union_rev2_witness :
    regexMatchRev2 3 [104]
      (Expr.alternation (Expr.charMatch [104]) (Expr.charMatch [101])) =
      some true ∧
    (true : Bool) = (true || false) :=
  ⟨by rfl,
   alternation_union_rev2 3 (Expr.charMatch [104]) (Expr.charMatch [101])
     [104] true true false (by rfl) (by rfl) (by rfl)⟩
